import Mathlib

/-!
Verification development for the PyPI collector/normalizer
(`src/package_managers/pypi/fetcher.py` and `src/package_managers/pypi/transformer.py`).
The Python code is shallowly embedded: JSON documents become the `Json` inductive,
Python dict/str operations become total Lean functions that return `Except PyErr`
exactly where the Python operation can raise, and the generator-based projections
become functions returning the list of yielded records together with the first
uncaught exception, if any.
-/

namespace Chai

/-- Shallow model of a Python/JSON value as produced by `json.loads`:
`null`, booleans, (integer) numbers, strings, arrays, and objects with
insertion-ordered fields. -/
inductive Json where
  | null : Json
  | bool (b : Bool) : Json
  | num (n : Int) : Json
  | str (s : String) : Json
  | arr (xs : List Json) : Json
  | obj (kvs : List (String × Json)) : Json

/-- Python exception kinds raised by the embedded operations. -/
inductive PyErr where
  | keyError (k : String) : PyErr
  | attributeError : PyErr
  | typeError : PyErr
  | indexError : PyErr

/-- Python truthiness (`bool(x)`): `None`, `False`, `0`, `""`, `[]`, `{}` are falsy. -/
def truthy : Json → Bool
  | .null => false
  | .bool b => b
  | .num n => n != 0
  | .str s => !s.data.isEmpty
  | .arr xs => !xs.isEmpty
  | .obj kvs => !kvs.isEmpty

/-- Check for the string constructor (`isinstance(x, str)`). -/
def Json.isStr : Json → Bool
  | .str _ => true
  | _ => false

/-- Underlying string of a string value, `""` for anything else
(used only under an `isStr` guard). -/
def strVal : Json → String
  | .str s => s
  | _ => ""

/-- First binding of a key in an insertion-ordered object body
(Python dicts have unique keys, `json.loads` keeps one binding per key). -/
def lookupKV : List (String × Json) → String → Option Json
  | [], _ => none
  | (k, v) :: rest, key => if k = key then some v else lookupKV rest key

/-- Python `d.get(key, default)`: only dicts have `.get`; calling it on any
other value raises `AttributeError`. A key bound to `null` yields `None`,
not the default, exactly as in Python. -/
def dictGet (j : Json) (k : String) (d : Json) : Except PyErr Json :=
  match j with
  | .obj kvs => .ok ((lookupKV kvs k).getD d)
  | _ => .error .attributeError

/-- Python subscription `d[key]` with a string key: `KeyError` when the key is
missing, `TypeError` on non-dict values (lists/str/int reject string indices). -/
def getItem (j : Json) (k : String) : Except PyErr Json :=
  match j with
  | .obj kvs =>
    match lookupKV kvs k with
    | some v => .ok v
    | none => .error (.keyError k)
  | _ => .error .typeError

/-- Python `for x in j`: arrays yield elements, strings yield one-character
strings, dicts yield their keys; other values raise `TypeError`. -/
def iterJ : Json → Except PyErr (List Json)
  | .arr xs => .ok xs
  | .str s => .ok (s.data.map fun c => .str (String.mk [c]))
  | .obj kvs => .ok (kvs.map fun kv => .str kv.1)
  | _ => .error .typeError

/-- Python `d.items()`: only dicts have `.items`. -/
def itemsJ : Json → Except PyErr (List (String × Json))
  | .obj kvs => .ok kvs
  | _ => .error .attributeError

/-- Python `x[0]`: first element of a list (IndexError when empty), first
character of a string, `KeyError` on a dict (JSON object keys are strings,
so the integer key `0` is never present), `TypeError` otherwise. -/
def index0 : Json → Except PyErr Json
  | .arr [] => .error .indexError
  | .arr (x :: _) => .ok x
  | .str s =>
    match s.data with
    | [] => .error .indexError
    | c :: _ => .ok (.str (String.mk [c]))
  | .obj _ => .error (.keyError "0")
  | _ => .error .typeError

/-- Python `a or b` (short-circuit on an already-evaluated left operand). -/
def pyOr (a b : Json) : Json := if truthy a then a else b

/-- Attribute access for string methods (`x.split`, `x.strip`, ...): the string
payload, or `AttributeError` when the value is not a string. -/
def asStr : Json → Except PyErr String
  | .str s => .ok s
  | _ => .error .attributeError

/-- Python whitespace as stripped by `str.strip()`. -/
def isPySpace (c : Char) : Bool :=
  c == ' ' || c == '\t' || c == '\n' || c == '\r' || c == '\x0b' || c == '\x0c'

/-- Substring test on character lists (`sub in s` for strings). -/
def containsSubL (pat : List Char) : List Char → Bool
  | [] => pat.isEmpty
  | c :: cs => pat.isPrefixOf (c :: cs) || containsSubL pat cs

/-- Split at the first occurrence of `sep`: `some (before, after)`, or `none`
when `sep` does not occur. -/
def splitFirstL (sep : List Char) : List Char → Option (List Char × List Char)
  | [] => none
  | c :: cs =>
    if sep.isPrefixOf (c :: cs) then some ([], List.drop (sep.length - 1) cs)
    else (splitFirstL sep cs).map fun p => (c :: p.1, p.2)

/-- Python `s.split(sep)` on character lists: split at every occurrence of the
(non-empty) separator, keeping empty fields. The fuel argument (instantiated
with `s.length`) only serves structural termination; each recursive step
consumes at least one character. -/
def splitAllL (sep : List Char) : Nat → List Char → List (List Char)
  | 0, s => [s]
  | n + 1, s =>
    match splitFirstL sep s with
    | none => [s]
    | some (a, b) => a :: splitAllL sep n b

/-- Python `s.strip()`. -/
def pyStripL (s : List Char) : List Char :=
  ((s.dropWhile isPySpace).reverse.dropWhile isPySpace).reverse

/-- Python `s.strip()` on strings. -/
def pyStripS (s : String) : String := String.mk (pyStripL s.data)

/-- Python `s.split(sep)` on strings (`sep` non-empty, as in the sources). -/
def pySplit (s sep : String) : List String :=
  (splitAllL sep.data s.data.length s.data).map String.mk

/-- Split a string at the first occurrence of `sep`. -/
def splitFirstS (s sep : String) : Option (String × String) :=
  (splitFirstL sep.data s.data).map fun p => (String.mk p.1, String.mk p.2)

/-- Python `s.split(" ", 1)`: at most one split, at the first space. -/
def splitSpace1 (s : String) : List String :=
  match splitFirstS s " " with
  | none => [s]
  | some (a, b) => [a, b]

/-- Substring test on strings (`sub in s`). -/
def containsS (s sub : String) : Bool := containsSubL sub.data s.data

/-- Python `s.startswith(pre)`. -/
def pyStartsWith (s pre : String) : Bool := pre.data.isPrefixOf s.data

/-- Python `"sub" in j`: substring test on strings, membership on lists
(a string compares equal only to an equal string), key test on dicts,
`TypeError` otherwise. -/
def pyContains (j : Json) (sub : String) : Except PyErr Bool :=
  match j with
  | .str s => .ok (containsSubL sub.data s.data)
  | .arr xs => .ok (xs.any fun x => match x with | .str t => t == sub | _ => false)
  | .obj kvs => .ok (kvs.any fun kv => kv.1 == sub)
  | _ => .error .typeError

mutual

/-- Python `repr(x)` for JSON-shaped values, used by `str()` on containers.
String escaping inside `repr` is approximated by plain single quotes; no
claim depends on the rendering of containers. -/
def pyRepr : Json → String
  | .null => "None"
  | .bool true => "True"
  | .bool false => "False"
  | .num n => toString n
  | .str s => "'" ++ s ++ "'"
  | .arr xs => "[" ++ pyReprList xs ++ "]"
  | .obj kvs => "\x7b" ++ pyReprObj kvs ++ "\x7d"

/-- Comma-separated reprs of list elements. -/
def pyReprList : List Json → String
  | [] => ""
  | [x] => pyRepr x
  | x :: xs => pyRepr x ++ ", " ++ pyReprList xs

/-- Comma-separated reprs of dict entries. -/
def pyReprObj : List (String × Json) → String
  | [] => ""
  | [(k, v)] => "'" ++ k ++ "': " ++ pyRepr v
  | (k, v) :: kvs => "'" ++ k ++ "': " ++ pyRepr v ++ ", " ++ pyReprObj kvs

end

/-- Python `str(x)` as used by f-string interpolation. -/
def pyStr : Json → String
  | .str s => s
  | j => pyRepr j

/-- Python `s.replace(pat, "")` removing every occurrence of the (non-empty)
pattern, left to right and non-overlapping; fueled for structural termination
(each step consumes at least one character). -/
def removeAllL (pat : List Char) : Nat → List Char → List Char
  | 0, s => s
  | n + 1, s =>
    match s with
    | [] => []
    | c :: cs =>
      if pat.isPrefixOf (c :: cs) then removeAllL pat n (List.drop (pat.length - 1) cs)
      else c :: removeAllL pat n cs

/-- Python `s.rstrip("/")`. -/
def rstripSlash (s : List Char) : List Char :=
  (s.reverse.dropWhile (fun c => c == '/')).reverse

/-! ## Fetcher (`src/package_managers/pypi/fetcher.py`) -/

/-- Failure modes of one detail request, the two exception classes caught by
`PyPIFetcher._get_package_data`: `requests.RequestException` (network failure
or non-success status) and `json.JSONDecodeError` (malformed response body). -/
inductive FetchErr where
  | requestException : FetchErr
  | jsonDecodeError : FetchErr

/-- Identifier normalization in `_get_package_data`:
`package_name.replace('/simple/', '').rstrip('/')`. -/
def normalizeName (name : String) : String :=
  String.mk (rstripSlash (removeAllL "/simple/".data name.data.length name.data))

/-- `PyPIFetcher._get_package_data`: issue the detail request for the
normalized identifier; both caught exception classes are logged and turned
into `None`. The network is abstracted as a function from the requested
identifier to the decoded JSON body or a failure. -/
def getPackageData (net : String → Except FetchErr Json) (name : String) : Option Json :=
  match net (normalizeName name) with
  | .ok j => some j
  | .error _ => none

/-- Batch threshold of the collector (`batch_size = 20`). -/
def batchSize : Nat := 20

/-- One iteration's buffer update in `PyPIFetcher.fetch`: append the fetched
document when `if package_data:` holds (Python truthiness, so `None` and an
empty object are both dropped). -/
def fetchStep (net : String → Except FetchErr Json) (name : String)
    (cur : List Json) : List Json :=
  match getPackageData net name with
  | some d => if truthy d then cur ++ [d] else cur
  | none => cur

/-- The batching loop of `PyPIFetcher.fetch` (lines 107-136): flush the buffer
as a batch when it reaches `batch_size` or at the final identifier, and only
when it is non-empty (`if current_batch:`). Returns the written batches in
order; file naming, the dated directory and logging are observability only
and not modelled. -/
def fetchLoop (net : String → Except FetchErr Json) :
    List String → List Json → List (List Json)
  | [], _ => []
  | name :: rest, cur =>
    let cur' := fetchStep net name cur
    if batchSize ≤ cur'.length ∨ rest = [] then
      if cur'.isEmpty then fetchLoop net rest [] else cur' :: fetchLoop net rest []
    else fetchLoop net rest cur'

/-- `PyPIFetcher.fetch` after a successful catalog listing: run the batching
loop over the listed identifiers with an empty initial buffer. -/
def fetchRun (net : String → Except FetchErr Json) (packages : List String) :
    List (List Json) :=
  fetchLoop net packages []

/-- The fetched document for an identifier when it is kept by the collector's
`if package_data:` guard: the detail fetch succeeded and returned a truthy
(non-empty) document. -/
def fetchSuccess (net : String → Except FetchErr Json) (name : String) : Option Json :=
  match getPackageData net name with
  | some d => if truthy d then some d else none
  | none => none

/-! ## Batch reading (`PyPITransformer._read_batch_files`) -/

/-- Modelled from the spec: the result of `json.loads` on one stored batch's
byte content. `json.loads` itself is Python library code outside the given
sources; per the spec a batch file is "a file containing a JSON array of raw
package documents", so a batch content either fails to decode
(`JSONDecodeError`, modelled as `none`) or decodes to the array of records
it contains (`some records`). -/
abbrev BatchContent := Option (List Json)

/-- `PyPITransformer._read_batch_files`: yield every package of every batch
whose content decodes, skipping (with a logged diagnostic) any batch whose
content raises `json.JSONDecodeError`, and continuing with the remaining
batches. -/
def readBatchFiles : List BatchContent → List Json
  | [] => []
  | none :: rest => readBatchFiles rest
  | some pkgs :: rest => pkgs ++ readBatchFiles rest

/-! ## Projections (`src/package_managers/pypi/transformer.py`)

Each generator method is embedded as a per-record extractor plus a driver.
A generator that raises stops after the records already yielded, so drivers
return the yielded records together with the first uncaught exception. -/

/-- Run a projection without a per-record exception handler (users, urls,
versions, dependencies): records of each package are yielded in order until
the first record whose extraction raises; that exception propagates and ends
the stream. -/
def runProjP {α : Type} (f : Json → List α × Option PyErr) :
    List Json → List α × Option PyErr
  | [] => ([], none)
  | r :: rest =>
    match f r with
    | (out, some e) => (out, some e)
    | (out, none) =>
      let t := runProjP f rest
      (out ++ t.1, t.2)

/-- One dependency entry of the `packages` projection's output
(`{"name": ..., "type": "runtime", "version_constraint": ...}`). -/
structure PkgDep where
  name : String
  type : String
  version_constraint : String
deriving DecidableEq

/-- Canonical package record built by `PyPITransformer.packages`. Fields keep
the dynamic values Python would store (any JSON value reached by `.get`). -/
structure PackageRec where
  id : Json
  name : Json
  import_id : Json
  version : Json
  description : Json
  homepage : Json
  repository : Json
  documentation : Json
  license : Json
  keywords : List String
  dependencies : List PkgDep
  download_count : Json
  source : String
  readme : Json
  requires_python : Json
  author : Json
  author_email : Json
  maintainer : Json
  maintainer_email : Json

/-- Requirement parsing of the `packages` projection (lines 67-78), applied to
the string requirement after the optional marker cut:
`parts = req.split(" ", 1)`, name `parts[0]`, constraint `parts[1]` if present. -/
def parsePkgDep (s : String) : PkgDep :=
  let parts := splitSpace1 s
  ⟨parts.headD "", "runtime", if 1 < parts.length then parts.getD 1 "" else ""⟩

/-- One `requires_dist` entry in `PyPITransformer.packages`: skip falsy
entries (`if req:`), cut at `"; extra =="` when that marker occurs
(`req.split("; extra ==")[0]`), then split on the first space. Non-string
entries raise (`in` works on containers, `.split` does not). -/
def pkgReqStep (req : Json) : Except PyErr (Option PkgDep) :=
  if !truthy req then .ok none
  else
    match pyContains req "; extra ==" with
    | .error e => .error e
    | .ok hasMarker =>
      if hasMarker then
        match asStr req with
        | .error e => .error e
        | .ok s => .ok (some (parsePkgDep ((pySplit s "; extra ==").headD s)))
      else
        match asStr req with
        | .error e => .error e
        | .ok s => .ok (some (parsePkgDep s))

/-- The `requires_dist` loop of `PyPITransformer.packages`. -/
def pkgReqLoop : List Json → Except PyErr (List PkgDep)
  | [] => .ok []
  | req :: rest =>
    match pkgReqStep req with
    | .error e => .error e
    | .ok d =>
      match pkgReqLoop rest with
      | .error e => .error e
      | .ok tail =>
        match d with
        | none => .ok tail
        | some x => .ok (x :: tail)

/-- One classifier in `PyPITransformer.packages` (lines 83-85): keep the text
after the last `" :: "` of classifiers starting with `"Topic :: "`. -/
def keywordStep (classifier : Json) : Except PyErr (Option String) :=
  match asStr classifier with
  | .error e => .error e
  | .ok s =>
    if pyStartsWith s "Topic :: " then .ok (some ((pySplit s " :: ").getLastD ""))
    else .ok none

/-- The classifier loop of `PyPITransformer.packages`. -/
def keywordLoop : List Json → Except PyErr (List String)
  | [] => .ok []
  | c :: rest =>
    match keywordStep c with
    | .error e => .error e
    | .ok k =>
      match keywordLoop rest with
      | .error e => .error e
      | .ok tail =>
        match k with
        | none => .ok tail
        | some x => .ok (x :: tail)

/-- Python `x == -1` for the downloads sentinel check. -/
def isNegOne : Json → Bool
  | .num n => n == -1
  | _ => false

/-- Per-record extraction of `PyPITransformer.packages` (lines 45-107):
`info = package_data["info"]`, skip empty names, homepage fallback through
`project_urls`, `-1` download sentinel normalized to `0`, `requires_dist`
parsing and `Topic ::` keywords, then the output dict. `Except.error` stands
for any exception escaping this per-package block. -/
def packageOne (pd : Json) : Except PyErr (Option PackageRec) := do
  let info ← getItem pd "info"
  let nameJ ← dictGet info "name" (.str "")
  if !truthy nameJ then return none
  let projectUrls := pyOr (← dictGet info "project_urls" .null) (.obj [])
  let hp0 ← dictGet info "home_page" .null
  let homepage ← if truthy hp0 then pure hp0 else dictGet projectUrls "Homepage" (.str "")
  let repository ← dictGet projectUrls "Source" (.str "")
  let documentation ← dictGet projectUrls "Documentation" (.str "")
  let version ← dictGet info "version" (.str "")
  let downloads ← dictGet info "downloads" (.obj [])
  let dc0 ← dictGet downloads "last_month" (.num 0)
  let downloadCount := if isNegOne dc0 then Json.num 0 else dc0
  let requiresDist := pyOr (← dictGet info "requires_dist" .null) (.arr [])
  let reqs ← iterJ requiresDist
  let dependencies ← pkgReqLoop reqs
  let classifiers ← dictGet info "classifiers" (.arr [])
  let cls ← iterJ classifiers
  let keywords ← keywordLoop cls
  let description ← dictGet info "summary" (.str "")
  let license ← dictGet info "license" (.str "")
  let readme ← dictGet info "description" (.str "")
  let requiresPython ← dictGet info "requires_python" (.str "")
  let author ← dictGet info "author" (.str "")
  let authorEmail ← dictGet info "author_email" (.str "")
  let maintainer ← dictGet info "maintainer" (.str "")
  let maintainerEmail ← dictGet info "maintainer_email" (.str "")
  return some
    { id := nameJ, name := nameJ, import_id := nameJ, version := version,
      description := description, homepage := homepage, repository := repository,
      documentation := documentation, license := license, keywords := keywords,
      dependencies := dependencies, download_count := downloadCount,
      source := "pypi", readme := readme, requires_python := requiresPython,
      author := author, author_email := authorEmail, maintainer := maintainer,
      maintainer_email := maintainerEmail }

/-- The driver loop of `PyPITransformer.packages`: per-package exceptions are
caught (`except KeyError` / `except Exception`) and the package is skipped;
successful records are buffered in chunks of 10 and flushed at the end, so
the yielded stream is the in-order concatenation of the chunks. -/
def packagesLoop : List Json → List PackageRec → List PackageRec
  | [], batch => batch
  | r :: rest, batch =>
    match packageOne r with
    | .ok (some p) =>
      let batch' := batch ++ [p]
      if 10 ≤ batch'.length then batch' ++ packagesLoop rest []
      else packagesLoop rest batch'
    | _ => packagesLoop rest batch

/-- `PyPITransformer.packages` over an in-memory record stream. -/
def packagesRun (recs : List Json) : List PackageRec :=
  packagesLoop recs []

/-- Canonical user record built by `PyPITransformer.users`. -/
structure UserRec where
  username : String
  import_id : String
deriving DecidableEq

/-- One author or maintainer entry in `PyPITransformer.users` (the two
symmetric blocks at lines 137-159): the display name must be a truthy string;
after trimming it must be non-empty and unseen; the import identity is the
trimmed email when the email field is truthy (raising if a truthy email is
not a string), else the trimmed display name. Returns the yielded records,
the updated seen-set, and any uncaught exception. -/
def personStep (seen : List String) (nameJ emailJ : Json) :
    List UserRec × List String × Option PyErr :=
  if truthy nameJ && nameJ.isStr then
    let n := pyStripS (strVal nameJ)
    if !n.data.isEmpty && !seen.contains n then
      if truthy emailJ then
        match asStr emailJ with
        | .error e => ([], seen, some e)
        | .ok es => ([⟨n, pyStripS es⟩], n :: seen, none)
      else ([⟨n, n⟩], n :: seen, none)
    else ([], seen, none)
  else ([], seen, none)

/-- Per-record processing of `PyPITransformer.users`: skip records whose
`info` is falsy, process the author then the maintainer against the same
seen-set. The projection has no per-record exception handler. -/
def usersStep (seen : List String) (r : Json) :
    List UserRec × List String × Option PyErr :=
  match dictGet r "info" (.obj []) with
  | .error e => ([], seen, some e)
  | .ok info =>
    if !truthy info then ([], seen, none)
    else
      match dictGet info "author" .null with
      | .error e => ([], seen, some e)
      | .ok a =>
        match dictGet info "author_email" .null with
        | .error e => ([], seen, some e)
        | .ok ae =>
          match personStep seen (pyOr a (.str "")) (pyOr ae (.str "")) with
          | (out1, seen1, some e) => (out1, seen1, some e)
          | (out1, seen1, none) =>
            match dictGet info "maintainer" .null with
            | .error e => (out1, seen1, some e)
            | .ok m =>
              match dictGet info "maintainer_email" .null with
              | .error e => (out1, seen1, some e)
              | .ok me =>
                let r2 := personStep seen1 (pyOr m (.str "")) (pyOr me (.str ""))
                (out1 ++ r2.1, r2.2.1, r2.2.2)

/-- The driver loop of `PyPITransformer.users`, threading the seen-set of
trimmed display names across records; an uncaught exception ends the stream. -/
def usersLoop (seen : List String) : List Json → List UserRec × Option PyErr
  | [] => ([], none)
  | r :: rest =>
    match usersStep seen r with
    | (out, _, some e) => (out, some e)
    | (out, seen', none) =>
      let t := usersLoop seen' rest
      (out ++ t.1, t.2)

/-- `PyPITransformer.users` over an in-memory record stream (fresh seen-set
per run: deduplication is within a single run only). -/
def usersRun (recs : List Json) : List UserRec × Option PyErr :=
  usersLoop [] recs

/-- Modelled from the spec: the three URL type identifiers injected through
`core.config.URLTypes`, which is outside the given sources. -/
structure UrlTypes where
  homepage : String
  repository : String
  documentation : String

/-- Canonical URL record built by `PyPITransformer.urls`. -/
structure UrlRec where
  id : Json
  url : Json
  type : String

/-- Per-record extraction of `PyPITransformer.urls` (lines 163-192): up to
three records per package, each keyed by the URL value itself; no per-record
exception handler. -/
def urlsOne (ut : UrlTypes) (pd : Json) : List UrlRec × Option PyErr :=
  match dictGet pd "info" (.obj []) with
  | .error e => ([], some e)
  | .ok info =>
    match dictGet info "project_urls" (.obj []) with
    | .error e => ([], some e)
    | .ok projectUrls =>
      match dictGet info "home_page" .null with
      | .error e => ([], some e)
      | .ok homepage =>
        let out1 := if truthy homepage then [UrlRec.mk homepage homepage ut.homepage] else []
        match dictGet projectUrls "Source" .null with
        | .error e => (out1, some e)
        | .ok repository =>
          let out2 := if truthy repository then [UrlRec.mk repository repository ut.repository] else []
          match dictGet projectUrls "Documentation" .null with
          | .error e => (out1 ++ out2, some e)
          | .ok docs =>
            let out3 := if truthy docs then [UrlRec.mk docs docs ut.documentation] else []
            (out1 ++ out2 ++ out3, none)

/-- `PyPITransformer.urls` over an in-memory record stream. -/
def urlsRun (ut : UrlTypes) (recs : List Json) : List UrlRec × Option PyErr :=
  runProjP (urlsOne ut) recs

/-- Modelled from the spec: `safe_int` from `core/utils.py` is outside the
given sources; per the spec's tolerance policy ("field absence at any level
yields empty-string/zero/skip, never a fault") a non-numeric downloads value
defaults to `0`. -/
def safeInt : Json → Int
  | .num n => n
  | _ => 0

/-- Canonical version record built by `PyPITransformer.versions`. -/
structure VersionRec where
  id : String
  package_id : Json
  version : String
  created_at : Json
  downloads : Int

/-- The `releases.items()` loop of `PyPITransformer.versions` (lines 203-214):
skip versions with a falsy release-file list, take the first release file's
upload time and downloads; an exception ends the stream after the records
already yielded. -/
def verLoop (nameJ : Json) : List (String × Json) → List VersionRec × Option PyErr
  | [] => ([], none)
  | (ver, rd) :: rest =>
    if !truthy rd then verLoop nameJ rest
    else
      match index0 rd with
      | .error e => ([], some e)
      | .ok rel =>
        match dictGet rel "upload_time" (.str "") with
        | .error e => ([], some e)
        | .ok ct =>
          match dictGet rel "downloads" (.num 0) with
          | .error e => ([], some e)
          | .ok dl =>
            let t := verLoop nameJ rest
            (⟨pyStr nameJ ++ "-" ++ ver, nameJ, ver, ct, safeInt dl⟩ :: t.1, t.2)

/-- Per-record extraction of `PyPITransformer.versions` (lines 196-214): skip
records with a falsy package name before touching `releases`; no per-record
exception handler. -/
def versionsOne (pd : Json) : List VersionRec × Option PyErr :=
  match dictGet pd "info" (.obj []) with
  | .error e => ([], some e)
  | .ok info =>
    match dictGet pd "releases" (.obj []) with
    | .error e => ([], some e)
    | .ok releases =>
      match dictGet info "name" .null with
      | .error e => ([], some e)
      | .ok nameJ =>
        if !truthy nameJ then ([], none)
        else
          match itemsJ releases with
          | .error e => ([], some e)
          | .ok items => verLoop nameJ items

/-- `PyPITransformer.versions` over an in-memory record stream. -/
def versionsRun (recs : List Json) : List VersionRec × Option PyErr :=
  runProjP versionsOne recs

/-- Modelled from the spec: the value of
`package_managers.pypi.structs.DependencyType.REQUIRES`, outside the given
sources; only its distinctness from `REQUIRES_PYTHON` matters. -/
def depTypeRequires : String := "requires"

/-- Modelled from the spec: the value of
`package_managers.pypi.structs.DependencyType.REQUIRES_PYTHON`, outside the
given sources. -/
def depTypeRequiresPython : String := "requires_python"

/-- Canonical dependency record built by `PyPITransformer.dependencies`. -/
structure DepRec where
  id : String
  package_id : Json
  dependency_id : String
  version_constraint : Json
  type : String

/-- Requirement parsing of the `dependencies` projection (line 228-230):
`parts = req.split(";")[0].strip().split(">=")`, name `parts[0].strip()`,
version `parts[1].strip()` when a `>=` occurred, else `""`. -/
def parseDepReq (req : String) : String × String :=
  let parts := pySplit (pyStripS ((pySplit req ";").headD req)) ">="
  (pyStripS (parts.headD ""),
   if 1 < parts.length then pyStripS (parts.getD 1 "") else "")

/-- One `requires_dist` record of the `dependencies` projection. -/
def depReqRecord (nameJ : Json) (s : String) : DepRec :=
  let p := parseDepReq s
  ⟨pyStr nameJ ++ "-" ++ p.1, nameJ, p.1, .str p.2, depTypeRequires⟩

/-- The `requires_dist` loop of `PyPITransformer.dependencies` (no truthiness
filter on individual entries, unlike the packages projection); a non-string
entry raises at `.split`, ending the stream after the records already
yielded. -/
def depReqLoop (nameJ : Json) : List Json → List DepRec × Option PyErr
  | [] => ([], none)
  | req :: rest =>
    match asStr req with
    | .error e => ([], some e)
    | .ok s =>
      let t := depReqLoop nameJ rest
      (depReqRecord nameJ s :: t.1, t.2)

/-- Per-record extraction of `PyPITransformer.dependencies` (lines 218-249):
skip records with a falsy package name; parse `requires_dist` when truthy;
emit the synthetic `"python"` dependency when `requires_python` is truthy.
No per-record exception handler. -/
def depsOne (pd : Json) : List DepRec × Option PyErr :=
  match dictGet pd "info" (.obj []) with
  | .error e => ([], some e)
  | .ok info =>
    match dictGet info "name" .null with
    | .error e => ([], some e)
    | .ok nameJ =>
      if !truthy nameJ then ([], none)
      else
        match dictGet info "requires_dist" (.arr []) with
        | .error e => ([], some e)
        | .ok rd =>
          let reqPart :=
            if truthy rd then
              match iterJ rd with
              | .error e => (([] : List DepRec), some e)
              | .ok reqs => depReqLoop nameJ reqs
            else ([], none)
          match reqPart with
          | (out, some e) => (out, some e)
          | (out, none) =>
            match dictGet info "requires_python" .null with
            | .error e => (out, some e)
            | .ok rp =>
              if truthy rp then
                (out ++ [⟨pyStr nameJ ++ "-python", nameJ, "python", rp,
                          depTypeRequiresPython⟩], none)
              else (out, none)

/-- `PyPITransformer.dependencies` over an in-memory record stream. -/
def depsRun (recs : List Json) : List DepRec × Option PyErr :=
  runProjP depsOne recs

/-! ## Spec-side comparison definitions and concrete inputs -/

/-- Split at the first whitespace character. -/
def splitFirstWsL : List Char → Option (List Char × List Char)
  | [] => none
  | c :: cs =>
    if isPySpace c then some ([], cs)
    else (splitFirstWsL cs).map fun p => (c :: p.1, p.2)

/-- Follows the spec's words for the packages projection: split the remaining
requirement string "on the first whitespace into (name, version_constraint)". -/
def specSplitFirstWs (s : String) : Option (String × String) :=
  (splitFirstWsL s.data).map fun p => (String.mk p.1, String.mk p.2)

/-- Follows the spec's words for the dependencies projection: split off the
environment marker (text after the first `;`), then split on the first `>=`
occurrence, "the entire text after that first `>=`" being the version floor. -/
def specDepParse (req : String) : String × String :=
  let pre := (splitFirstS req ";").elim req Prod.fst
  match splitFirstS (pyStripS pre) ">=" with
  | none => (pyStripS (pyStripS pre), "")
  | some (a, b) => (pyStripS a, pyStripS b)

/-- Raw record with the given `info` fields. -/
def infoRec (fields : List (String × Json)) : Json :=
  Json.obj [("info", Json.obj fields)]

/-- Raw record with a name and a list of string `requires_dist` entries. -/
def reqsRec (name : String) (reqs : List String) : Json :=
  infoRec [("name", .str name), ("requires_dist", .arr (reqs.map .str))]

/-- Raw record with a name, string `requires_dist` entries, and an optional
`requires_python` field. -/
def reqsPyRec (name : String) (reqs : List String) (rp : Option String) : Json :=
  infoRec ([("name", .str name), ("requires_dist", .arr (reqs.map .str))] ++
    (match rp with
     | some s => [("requires_python", Json.str s)]
     | none => []))

/-- Network on which every detail request succeeds with the empty JSON object
`\x7b\x7d`: a successful fetch whose document is dropped by the collector's
truthiness guard. -/
def c1net : String → Except FetchErr Json := fun _ => .ok (Json.obj [])

/-- Network on which every detail request succeeds with a one-field object. -/
def c2net : String → Except FetchErr Json :=
  fun _ => .ok (Json.obj [("name", Json.str "x")])

/-- Twenty-one identifiers: enough for one full batch plus a final partial one. -/
def c2pkgs : List String := List.replicate 21 "p"

/-- A raw record that is a bare string: `package_data.get("info", ...)` raises
`AttributeError` on it in every projection without a per-record handler. -/
def c3bad : Json := Json.str "not-a-dict"

/-- A well-formed record yielding one dependency record. -/
def c3good : Json := reqsRec "good" ["requests>=2.0"]

/-- Network failing (with a caught `requests.RequestException`) exactly on the
identifier `"bad"`. -/
def c4net : String → Except FetchErr Json :=
  fun s => if s = "bad" then .error .requestException
           else .ok (Json.obj [("k", Json.str "v")])

/-- Record whose single requirement contains a tab and no space. -/
def c6rec : Json := reqsRec "p" ["foo\tbar"]

/-- Record whose single requirement contains two `>=` occurrences. -/
def c7rec : Json := reqsRec "p" ["a>=1.0,>=2.0"]

/-- First record with author `" Alice "` and email `" a1@x "`. -/
def c8rec1 : Json := infoRec [("author", .str " Alice "), ("author_email", .str " a1@x ")]

/-- Second record with the identical (trimmed) author name and another email. -/
def c8rec2 : Json := infoRec [("author", .str "Alice"), ("author_email", .str "a2@x")]

/-- Record whose author and maintainer carry the same display name. -/
def c8rec3 : Json :=
  infoRec [("author", .str "Bob"), ("author_email", .str "b1@x"),
           ("maintainer", .str "Bob"), ("maintainer_email", .str "b2@x")]

/-- Record with an author and no email fields. -/
def c8rec4 : Json := infoRec [("author", .str "Carol")]

/-- Raw record with the given `info` fields and a `releases` value. -/
def c10rec (infoKvs : List (String × Json)) (releases : Json) : Json :=
  Json.obj [("info", Json.obj infoKvs), ("releases", releases)]

/-- Info fields with requirements but no `name` key. -/
def c10kvs : List (String × Json) := [("requires_dist", Json.arr [Json.str "x>=1"])]

/-- A non-trivial releases map. -/
def c10rel : Json := Json.obj [("1.0", Json.arr [Json.obj [("upload_time", Json.str "t")]])]

/-! ## Lemmas about the collector loop -/

theorem fetchStep_eq (net : String → Except FetchErr Json) (name : String)
    (cur : List Json) :
    fetchStep net name cur = cur ++ (fetchSuccess net name).toList := by
  unfold fetchStep fetchSuccess
  cases h : getPackageData net name with
  | none => simp
  | some d => by_cases ht : truthy d <;> simp [ht]

theorem fetchLoop_flatten (net : String → Except FetchErr Json) :
    ∀ (l : List String) (cur : List Json),
      (fetchLoop net l cur).flatten =
        if l = [] then [] else cur ++ l.filterMap (fetchSuccess net) := by
  intro l
  induction l with
  | nil => intro cur; simp [fetchLoop]
  | cons name rest ih =>
    intro cur
    have hcons : List.filterMap (fetchSuccess net) (name :: rest) =
        (fetchSuccess net name).toList ++ List.filterMap (fetchSuccess net) rest := by
      cases h : fetchSuccess net name <;> simp [List.filterMap_cons, h]
    have hstep := fetchStep_eq net name cur
    simp only [fetchLoop]
    by_cases hflush : batchSize ≤ (fetchStep net name cur).length ∨ rest = []
    · rw [if_pos hflush]
      by_cases hemp : (fetchStep net name cur).isEmpty = true
      · rw [if_pos hemp]
        have h0 : fetchStep net name cur = [] := by simpa using hemp
        have hnil : cur ++ (fetchSuccess net name).toList = [] := hstep.symm.trans h0
        rw [ih [], if_neg (List.cons_ne_nil name rest), hcons,
          (List.append_eq_nil.mp hnil).1, (List.append_eq_nil.mp hnil).2]
        cases rest with
        | nil => simp
        | cons a t => simp
      · rw [if_neg hemp, List.flatten_cons, ih [],
          if_neg (List.cons_ne_nil name rest), hcons, hstep]
        cases rest with
        | nil => simp
        | cons a t => simp
    · rw [if_neg hflush]
      have hrest : rest ≠ [] := fun h => hflush (Or.inr h)
      rw [ih (fetchStep net name cur), if_neg hrest,
        if_neg (List.cons_ne_nil name rest), hcons, hstep]
      simp

theorem fetchRun_flatten (net : String → Except FetchErr Json) (pkgs : List String) :
    (fetchRun net pkgs).flatten = pkgs.filterMap (fetchSuccess net) := by
  unfold fetchRun
  rw [fetchLoop_flatten]
  cases pkgs <;> simp

theorem fetchLoop_batches (net : String → Except FetchErr Json) :
    ∀ (l : List String) (cur : List Json), cur.length < batchSize →
      (∀ i, i < (fetchLoop net l cur).length → (fetchLoop net l cur).getD i [] ≠ []) ∧
      (∀ i, i + 1 < (fetchLoop net l cur).length →
        ((fetchLoop net l cur).getD i []).length = batchSize) := by
  intro l
  induction l with
  | nil =>
    intro cur _
    constructor <;> intro i hi <;> simp [fetchLoop] at hi
  | cons name rest ih =>
    intro cur hcur
    have hstep : (fetchStep net name cur).length ≤ cur.length + 1 := by
      rw [fetchStep_eq]
      cases h : fetchSuccess net name <;> simp
    simp only [fetchLoop]
    by_cases hflush : batchSize ≤ (fetchStep net name cur).length ∨ rest = []
    · rw [if_pos hflush]
      by_cases hemp : (fetchStep net name cur).isEmpty = true
      · rw [if_pos hemp]
        exact ih [] (by decide)
      · rw [if_neg hemp]
        have tail := ih [] (by decide)
        have hne : fetchStep net name cur ≠ [] := by
          intro h
          rw [h] at hemp
          simp at hemp
        constructor
        · intro i hi
          cases i with
          | zero =>
            simp only [List.getD_cons_zero]
            exact hne
          | succ j =>
            simp only [List.getD_cons_succ]
            exact tail.1 j (by simp at hi; omega)
        · intro i hi
          cases i with
          | zero =>
            simp only [List.getD_cons_zero]
            have hone : 0 < (fetchLoop net rest []).length := by simp at hi; omega
            have hrest : rest ≠ [] := by
              intro h
              subst h
              simp [fetchLoop] at hone
            have hge : batchSize ≤ (fetchStep net name cur).length :=
              hflush.resolve_right hrest
            omega
          | succ j =>
            simp only [List.getD_cons_succ]
            exact tail.2 j (by simp at hi; omega)
    · have hlt : (fetchStep net name cur).length < batchSize := by
        rcases not_or.mp hflush with ⟨h, _⟩
        omega
      rw [if_neg hflush]
      exact ih (fetchStep net name cur) hlt

/-- C1 (counterexample): on a network whose detail responses are the empty
JSON object, the single identifier's fetch succeeds (`getPackageData` returns
a record), yet zero records are written across all batches — the collector's
`if package_data:` truthiness guard drops the fetched record, so the claimed
equality with the number of successful fetches fails. -/
theorem C1_counterexample :
    ((fetchRun c1net ["a"]).map List.length).sum = 0 ∧
    (["a"].filterMap (getPackageData c1net)).length = 1 :=
  ⟨rfl, rfl⟩

/-- C1 (amended): for every run whose catalog listing succeeds, the records
written across all batches are exactly, in order, the documents of the
identifiers whose detail fetch returned a truthy (non-`None`, non-empty)
record — none of those is dropped or duplicated, and the total record count
equals the number of such fetches. -/
theorem C1_amended_no_loss (net : String → Except FetchErr Json)
    (pkgs : List String) :
    (fetchRun net pkgs).flatten = pkgs.filterMap (fetchSuccess net) ∧
    ((fetchRun net pkgs).map List.length).sum =
      (pkgs.filterMap (fetchSuccess net)).length := by
  refine ⟨fetchRun_flatten net pkgs, ?_⟩
  rw [← List.length_flatten, fetchRun_flatten]

/-- C2: in every run, every written batch is non-empty, and every batch other
than the last contains exactly `batch_size = 20` records. -/
theorem C2_batch_invariant (net : String → Except FetchErr Json)
    (pkgs : List String) :
    (∀ i, i < (fetchRun net pkgs).length → (fetchRun net pkgs).getD i [] ≠ []) ∧
    (∀ i, i + 1 < (fetchRun net pkgs).length →
      ((fetchRun net pkgs).getD i []).length = batchSize) :=
  fetchLoop_batches net pkgs [] (by simp [batchSize])

/-- Witness for C2: twenty-one successful fetches produce a first batch of
exactly twenty records and a non-empty final batch. -/
theorem C2_batch_invariant_witness :
    ((fetchRun c2net c2pkgs).getD 0 []).length = batchSize ∧
    (fetchRun c2net c2pkgs).getD 1 [] ≠ [] :=
  ⟨(C2_batch_invariant c2net c2pkgs).2 0 (by decide),
   (C2_batch_invariant c2net c2pkgs).1 1 (by decide)⟩

/-- C4: a failing detail request (network error or malformed body) makes
`_get_package_data` return `None`, and such a per-item failure never aborts
the run — the batches' contents with the failing identifier present equal
those with it absent, so all remaining identifiers are still processed. -/
theorem C4_fetch_failure_contained (net : String → Except FetchErr Json)
    (name : String) (pre post : List String) :
    (∀ e, net (normalizeName name) = .error e → getPackageData net name = none) ∧
    (getPackageData net name = none →
      (fetchRun net (pre ++ name :: post)).flatten = (fetchRun net (pre ++ post)).flatten) := by
  constructor
  · intro e he
    simp [getPackageData, he]
  · intro h
    rw [fetchRun_flatten, fetchRun_flatten, List.filterMap_append, List.filterMap_append,
      List.filterMap_cons]
    have hs : fetchSuccess net name = none := by simp [fetchSuccess, h]
    rw [hs]

/-- Witness for C4: a network that fails on `"bad"` yields `None` there, and
the run over `["a", "bad", "b"]` writes the same records as over `["a", "b"]`. -/
theorem C4_fetch_failure_contained_witness :
    getPackageData c4net "bad" = none ∧
    (fetchRun c4net ["a", "bad", "b"]).flatten = (fetchRun c4net ["a", "b"]).flatten :=
  ⟨(C4_fetch_failure_contained c4net "bad" [] []).1 FetchErr.requestException rfl,
   (C4_fetch_failure_contained c4net "bad" ["a"] ["b"]).2 rfl⟩

/-- C5: batch decode failure is batch-local — the raw-record stream is exactly
the in-order concatenation of the records of the batches that decode, and the
number of emitted records is the sum over the valid batches only. -/
theorem C5_decode_failure_batch_local (data : List BatchContent) :
    readBatchFiles data = (data.filterMap id).flatten ∧
    (readBatchFiles data).length = ((data.filterMap id).map List.length).sum := by
  have h : readBatchFiles data = (data.filterMap id).flatten := by
    induction data with
    | nil => rfl
    | cons d rest ih =>
      cases d with
      | none => simpa [readBatchFiles, List.filterMap_cons] using ih
      | some pkgs => simp [readBatchFiles, List.filterMap_cons, ih]
  refine ⟨h, ?_⟩
  rw [h, List.length_flatten]

/-! ## Lemmas about the projection drivers -/

theorem packagesLoop_eq :
    ∀ (recs : List Json) (batch : List PackageRec),
      packagesLoop recs batch = batch ++ recs.filterMap (fun r =>
        match packageOne r with
        | .ok (some p) => some p
        | _ => none) := by
  intro recs
  induction recs with
  | nil => intro batch; simp [packagesLoop]
  | cons r rest ih =>
    intro batch
    simp only [packagesLoop]
    cases h : packageOne r with
    | error e => simp [List.filterMap_cons, h, ih]
    | ok o =>
      cases o with
      | none => simp [List.filterMap_cons, h, ih]
      | some p =>
        simp only [List.filterMap_cons, h]
        by_cases hlen : 10 ≤ (batch ++ [p]).length
        · rw [if_pos hlen, ih []]
          simp
        · rw [if_neg hlen, ih (batch ++ [p])]
          simp

/-- C3 (counterexample): a record that is not a JSON object makes the
`dependencies` projection raise `AttributeError` at `package_data.get`; the
exception is not caught inside the projection — it ends the stream, and the
well-formed record that follows (which on its own yields one dependency
record) contributes nothing. -/
theorem C3_counterexample :
    depsRun [c3bad, c3good] = ([], some PyErr.attributeError) ∧
    (depsRun [c3good]).1.length = 1 :=
  ⟨rfl, rfl⟩

/-- C3 (amended): only the `packages` projection catches unexpected
per-package exceptions — its output is exactly the per-record successes, every
faulting record skipped and all others kept; in the projections without a
handler (shown for `dependencies`, likewise users/urls/versions) an exception
while extracting one package propagates and ends the projection, so no record
of any later package is yielded. -/
theorem C3_amended_scope :
    (∀ recs : List Json,
      packagesRun recs = recs.filterMap (fun r =>
        match packageOne r with
        | .ok (some p) => some p
        | _ => none)) ∧
    (∀ (r : Json) (rest : List Json) (e : PyErr),
      (depsOne r).2 = some e → depsRun (r :: rest) = ((depsOne r).1, some e)) := by
  constructor
  · intro recs
    exact packagesLoop_eq recs []
  · intro r rest e h
    unfold depsRun runProjP
    rcases hd : depsOne r with ⟨out, err⟩
    rw [hd] at h
    simp only at h
    subst h
    simp [hd]

/-- Witness for C3 (amended): the faulting bare-string record aborts the
dependencies projection immediately, before the following well-formed record. -/
theorem C3_amended_scope_witness :
    depsRun (c3bad :: [c3good]) = ((depsOne c3bad).1, some PyErr.attributeError) :=
  C3_amended_scope.2 c3bad [c3good] PyErr.attributeError rfl

/-! ## Lemmas about the split primitives -/

@[simp] theorem except_bind_ok {ε α β : Type} (a : α) (f : α → Except ε β) :
    (Except.ok a : Except ε α) >>= f = f a := rfl

theorem getD_zero_headD {α : Type} (l : List α) (d : α) : l.getD 0 d = l.headD d := by
  cases l <;> rfl

theorem splitFirstL_nil (sep : List Char) : splitFirstL sep [] = none := rfl

theorem splitFirstL_length (sep : List Char) :
    ∀ (s a b : List Char), splitFirstL sep s = some (a, b) → b.length < s.length := by
  intro s
  induction s with
  | nil => intro a b hab; simp [splitFirstL] at hab
  | cons c cs ih =>
    intro a b hab
    simp only [splitFirstL] at hab
    by_cases hp : sep.isPrefixOf (c :: cs) = true
    · rw [if_pos hp] at hab
      obtain ⟨-, hb⟩ := Prod.mk.injEq .. ▸ Option.some.inj hab
      rw [← hb]
      simp only [List.length_drop, List.length_cons]
      omega
    · rw [if_neg hp] at hab
      cases hr : splitFirstL sep cs with
      | none => rw [hr] at hab; simp at hab
      | some p =>
        rw [hr] at hab
        rcases p with ⟨a', b'⟩
        simp only [Option.map_some'] at hab
        obtain ⟨-, hb⟩ := Prod.mk.injEq .. ▸ Option.some.inj hab
        have := ih a' b' hr
        rw [← hb]
        simp only [List.length_cons]
        omega

theorem splitAllL_ne_nil (sep : List Char) (n : Nat) (s : List Char) :
    splitAllL sep n s ≠ [] := by
  cases n with
  | zero => simp [splitAllL]
  | succ m =>
    simp only [splitAllL]
    cases splitFirstL sep s with
    | none => simp
    | some p => cases p; simp

theorem splitAllL_of_none (sep : List Char) (n : Nat) (s : List Char)
    (hf : splitFirstL sep s = none) : splitAllL sep n s = [s] := by
  cases n with
  | zero => rfl
  | succ m => simp [splitAllL, hf]

theorem mapped_headD (sep : List Char) (n : Nat) (s : List Char) (h : s.length ≤ n)
    (d : String) :
    ((splitAllL sep n s).map String.mk).headD d =
      (splitFirstL sep s).elim (String.mk s) (fun p => String.mk p.1) := by
  cases n with
  | zero =>
    have hs : s = [] := List.eq_nil_of_length_eq_zero (Nat.le_zero.mp h)
    subst hs
    rfl
  | succ m =>
    simp only [splitAllL]
    cases hf : splitFirstL sep s with
    | none => simp
    | some p => cases p; simp

theorem containsSubL_eq_isSome (pat : List Char) (hpat : pat ≠ []) :
    ∀ s, containsSubL pat s = (splitFirstL pat s).isSome := by
  intro s
  induction s with
  | nil =>
    have : pat.isEmpty = false := by cases pat <;> simp_all
    simp [containsSubL, splitFirstL, this]
  | cons c cs ih =>
    simp only [containsSubL, splitFirstL]
    by_cases hp : pat.isPrefixOf (c :: cs) = true
    · simp [hp]
    · simp only [Bool.not_eq_true] at hp
      simp [hp, ih]

theorem pySplit_headD (s sep d : String) :
    (pySplit s sep).headD d = (splitFirstS s sep).elim s Prod.fst := by
  unfold pySplit splitFirstS
  rw [mapped_headD sep.data s.data.length s.data (le_refl _)]
  cases hf : splitFirstL sep.data s.data with
  | none => simp
  | some p => cases p; simp

theorem pySplit_of_none (s sep : String) (hf : splitFirstS s sep = none) :
    pySplit s sep = [s] := by
  unfold splitFirstS at hf
  have hl : splitFirstL sep.data s.data = none := by
    cases hl : splitFirstL sep.data s.data with
    | none => rfl
    | some p => rw [hl] at hf; simp at hf
  unfold pySplit
  rw [splitAllL_of_none sep.data s.data.length s.data hl]
  rfl

theorem pySplit_of_some (s sep a b : String)
    (hf : splitFirstS s sep = some (a, b)) :
    1 < (pySplit s sep).length ∧
    (pySplit s sep).getD 1 "" = (splitFirstS b sep).elim b Prod.fst := by
  unfold splitFirstS at hf
  cases hl : splitFirstL sep.data s.data with
  | none => rw [hl] at hf; simp at hf
  | some p =>
    rcases p with ⟨a', b'⟩
    rw [hl] at hf
    simp only [Option.map_some', Option.some.injEq, Prod.mk.injEq] at hf
    obtain ⟨hfa, hfb⟩ := hf
    have hsne : s.data ≠ [] := by
      intro h0
      rw [h0, splitFirstL_nil] at hl
      exact Option.noConfusion hl
    have hblt : b'.length < s.data.length := splitFirstL_length sep.data s.data a' b' hl
    obtain ⟨m, hm⟩ : ∃ m, s.data.length = m + 1 := by
      cases hdd : s.data with
      | nil => exact absurd hdd hsne
      | cons x xs => exact ⟨xs.length, by simp [hdd]⟩
    unfold pySplit
    rw [hm]
    simp only [splitAllL, hl, List.map_cons]
    constructor
    · have := List.length_pos.mpr (splitAllL_ne_nil sep.data m b')
      simp only [List.length_cons, List.length_map]
      omega
    · have hgd : (String.mk a' :: (splitAllL sep.data m b').map String.mk).getD 1 "" =
          ((splitAllL sep.data m b').map String.mk).getD 0 "" := rfl
      rw [hgd, getD_zero_headD, mapped_headD sep.data m b' (by omega)]
      subst hfb
      unfold splitFirstS
      cases hq : splitFirstL sep.data b' with
      | none => simp
      | some q => cases q; simp

/-! ## Lemmas about the requirement parsers -/

theorem truthy_str (name : String) (h : name ≠ "") : truthy (Json.str name) = true := by
  have hd : name.data ≠ [] := by
    intro h0
    exact h (String.ext h0)
  cases hnd : name.data with
  | nil => exact absurd hnd hd
  | cons c cs => simp [truthy, hnd]

theorem pyOr_arr (xs : List Json) : pyOr (.arr xs) (.arr []) = .arr xs := by
  cases xs <;> simp [pyOr, truthy]

theorem parsePkgDep_spec (s : String) :
    parsePkgDep s =
      match splitFirstS s " " with
      | none => ⟨s, "runtime", ""⟩
      | some (a, b) => ⟨a, "runtime", b⟩ := by
  unfold parsePkgDep splitSpace1
  cases hf : splitFirstS s " " with
  | none => simp
  | some p => cases p; simp

theorem pkgReqStep_str (r : String) :
    pkgReqStep (.str r) =
      .ok (if r.data.isEmpty then none
           else some (parsePkgDep ((splitFirstS r "; extra ==").elim r Prod.fst))) := by
  by_cases hr : r.data.isEmpty = true
  · have htr : truthy (Json.str r) = false := by simp [truthy, hr]
    simp [pkgReqStep, htr, hr]
  · simp only [Bool.not_eq_true] at hr
    have htr : truthy (Json.str r) = true := by simp [truthy, hr]
    unfold pkgReqStep
    rw [htr]
    have hpc : pyContains (.str r) "; extra ==" =
        .ok ((splitFirstL "; extra ==".data r.data).isSome) := by
      simp [pyContains, containsSubL_eq_isSome "; extra ==".data (by decide) r.data]
    rw [hpc]
    cases hf : splitFirstL "; extra ==".data r.data with
    | none =>
      have hfs : splitFirstS r "; extra ==" = none := by
        unfold splitFirstS
        rw [hf]
        rfl
      simp [asStr, hfs, hr]
    | some p =>
      rcases p with ⟨a', b'⟩
      have hfs : splitFirstS r "; extra ==" = some (String.mk a', String.mk b') := by
        unfold splitFirstS
        rw [hf]
        rfl
      have hhd : (pySplit r "; extra ==").headD r = String.mk a' := by
        rw [pySplit_headD r "; extra ==" r, hfs]
        rfl
      cases hps : pySplit r "; extra ==" with
      | nil =>
        unfold pySplit at hps
        cases hsa : splitAllL "; extra ==".data r.data.length r.data with
        | nil => exact absurd hsa (splitAllL_ne_nil _ _ _)
        | cons y ys => rw [hsa] at hps; simp at hps
      | cons x xs =>
        have hx : x = String.mk a' := by
          have h2 := hhd
          rw [hps] at h2
          simpa using h2
        simp [asStr, hfs, hps, hx, hr]

theorem pkgReqLoop_str (rs : List String) :
    pkgReqLoop (rs.map .str) =
      .ok ((rs.filter (fun r => !r.data.isEmpty)).map
        (fun r => parsePkgDep ((splitFirstS r "; extra ==").elim r Prod.fst))) := by
  induction rs with
  | nil => rfl
  | cons r rest ih =>
    simp only [List.map_cons, pkgReqLoop, pkgReqStep_str r, ih]
    by_cases hr : r.data.isEmpty = true
    · simp [List.filter_cons, hr]
    · simp only [Bool.not_eq_true] at hr
      simp [List.filter_cons, hr]

theorem packageOne_reqsRec (name : String) (reqs : List String) (h : name ≠ "") :
    packageOne (reqsRec name reqs) =
      .ok (some
        { id := .str name, name := .str name, import_id := .str name,
          version := .str "", description := .str "", homepage := .str "",
          repository := .str "", documentation := .str "", license := .str "",
          keywords := [],
          dependencies := (reqs.filter (fun r => !r.data.isEmpty)).map
            (fun r => parsePkgDep ((splitFirstS r "; extra ==").elim r Prod.fst)),
          download_count := .num 0, source := "pypi", readme := .str "",
          requires_python := .str "", author := .str "", author_email := .str "",
          maintainer := .str "", maintainer_email := .str "" }) := by
  unfold packageOne reqsRec infoRec
  simp +decide [getItem, dictGet, lookupKV, pyOr, truthy, iterJ,
    keywordLoop, isNegOne]
  have hnd : ¬(name.data = []) := fun h0 => h (String.ext h0)
  rw [if_neg hnd]
  by_cases hre : reqs = []
  · subst hre
    simp [pkgReqLoop]
  · rw [if_neg hre]
    simp [pkgReqLoop_str]

/-- C6 (counterexample): the packages projection splits a requirement on the
first space character only; on the entry `"foo\tbar"` (tab, no space) it
produces the dependency name `"foo\tbar"` with an empty constraint, whereas
splitting on the first whitespace — the claim's words — would give name
`"foo"` and constraint `"bar"`. -/
theorem C6_counterexample :
    (packagesRun [c6rec]).map (fun p => p.dependencies) =
      [[⟨"foo\tbar", "runtime", ""⟩]] ∧
    specSplitFirstWs "foo\tbar" = some ("foo", "bar") :=
  ⟨rfl, rfl⟩

/-- C6 (amended): in the packages projection every `requires_dist` entry is
parsed by first removing any `"; extra =="` environment-marker segment
entirely (everything from the first `"; extra =="` on, also when multiple
`;`-delimited clauses exist), then splitting the remaining string on the
first space character (not on arbitrary whitespace) into a dependency name
and a version constraint; an entry with no space after marker removal yields
an empty constraint. -/
theorem C6_amended_space_split (name : String) (reqs : List String) (h : name ≠ "") :
    ((packagesRun [reqsRec name reqs]).map (fun p => p.dependencies) =
      [(reqs.filter (fun r => !r.data.isEmpty)).map
        (fun r => parsePkgDep ((splitFirstS r "; extra ==").elim r Prod.fst))]) ∧
    (∀ s : String, parsePkgDep s =
      match splitFirstS s " " with
      | none => ⟨s, "runtime", ""⟩
      | some (a, b) => ⟨a, "runtime", b⟩) := by
  constructor
  · unfold packagesRun
    rw [packagesLoop_eq [reqsRec name reqs] []]
    rw [List.filterMap_cons]
    rw [packageOne_reqsRec name reqs h]
    rfl
  · exact parsePkgDep_spec

/-- Witness for C6 (amended): the spec's own example entry is cut at the
marker and, containing no space, keeps its full text as name with an empty
constraint. -/
theorem C6_amended_space_split_witness :
    (packagesRun [reqsRec "p" ["chardet<6,>=3.0.2; extra == 'use-chardet-on-py3'"]]).map
        (fun p => p.dependencies) =
      [[⟨"chardet<6,>=3.0.2", "runtime", ""⟩]] :=
  (C6_amended_space_split "p" ["chardet<6,>=3.0.2; extra == 'use-chardet-on-py3'"]
    (by decide)).1

/-! ## The dependencies projection's parser -/

theorem parseDepReq_spec (s : String) :
    parseDepReq s =
      (let base := pyStripS ((splitFirstS s ";").elim s Prod.fst)
       match splitFirstS base ">=" with
       | none => (pyStripS base, "")
       | some (a, b) =>
         (pyStripS a, (splitFirstS b ">=").elim (pyStripS b) fun q => pyStripS q.1)) := by
  unfold parseDepReq
  rw [pySplit_headD s ";" s]
  show _ = (match splitFirstS (pyStripS ((splitFirstS s ";").elim s Prod.fst)) ">=" with
    | none => (pyStripS (pyStripS ((splitFirstS s ";").elim s Prod.fst)), "")
    | some (a, b) =>
      (pyStripS a, (splitFirstS b ">=").elim (pyStripS b) fun q => pyStripS q.1))
  cases hf : splitFirstS (pyStripS ((splitFirstS s ";").elim s Prod.fst)) ">=" with
  | none =>
    rw [pySplit_of_none _ ">=" hf]
    simp
  | some p =>
    rcases p with ⟨a, b⟩
    obtain ⟨hlen, hgd⟩ := pySplit_of_some _ ">=" a b hf
    have hhd : (pySplit (pyStripS ((splitFirstS s ";").elim s Prod.fst)) ">=").headD "" = a := by
      rw [pySplit_headD _ ">=" "", hf]
      rfl
    simp only [hhd, hgd, hlen, if_true]
    cases hq : splitFirstS b ">=" with
    | none => simp
    | some q => cases q; simp

theorem depReqLoop_str (nameJ : Json) (rs : List String) :
    depReqLoop nameJ (rs.map .str) = (rs.map (depReqRecord nameJ), none) := by
  induction rs with
  | nil => rfl
  | cons r rest ih => simp [depReqLoop, asStr, ih]

theorem depsOne_reqsPyRec (name : String) (reqs : List String) (rp : Option String)
    (h : name ≠ "") :
    depsOne (reqsPyRec name reqs rp) =
      (reqs.map (depReqRecord (.str name)) ++
        (match rp with
         | some s => if s.data.isEmpty then []
             else [⟨name ++ "-python", .str name, "python", .str s,
                    depTypeRequiresPython⟩]
         | none => []), none) := by
  have ht := truthy_str name h
  have hnd : ¬name.data = [] := fun h0 => h (String.ext h0)
  cases rp with
  | none =>
    unfold depsOne reqsPyRec infoRec
    by_cases hre : reqs = []
    · subst hre
      simp [dictGet, lookupKV, ht, truthy, hnd]
    · simp [dictGet, lookupKV, ht, truthy, iterJ, depReqLoop_str, hre, hnd]
  | some s =>
    unfold depsOne reqsPyRec infoRec
    by_cases hs : s.data.isEmpty = true
    · by_cases hre : reqs = []
      · subst hre
        simp [dictGet, lookupKV, ht, truthy, hs, hnd]
      · simp [dictGet, lookupKV, ht, truthy, iterJ, depReqLoop_str, hre, hs, hnd]
    · simp only [Bool.not_eq_true] at hs
      by_cases hre : reqs = []
      · subst hre
        simp [dictGet, lookupKV, ht, truthy, hs, pyStr, hnd]
      · simp [dictGet, lookupKV, ht, truthy, iterJ, depReqLoop_str, hre, hs, pyStr, hnd]

theorem reqsRec_eq (name : String) (reqs : List String) :
    reqsRec name reqs = reqsPyRec name reqs none := by
  simp [reqsRec, reqsPyRec, infoRec]

/-- C7 (counterexample): the dependencies projection splits the de-markered
requirement on every `>=` occurrence and keeps only the second field, so on
`"a>=1.0,>=2.0"` the emitted version constraint is `"1.0,"`, not the entire
text `"1.0,>=2.0"` after the first `>=` that the claim describes (and that
the spec-following parser produces). -/
theorem C7_counterexample :
    (depsRun [c7rec]).1.map (fun d => d.version_constraint) = [Json.str "1.0,"] ∧
    specDepParse "a>=1.0,>=2.0" = ("a", "1.0,>=2.0") ∧
    Json.str "1.0," ≠ Json.str "1.0,>=2.0" := by
  refine ⟨rfl, rfl, ?_⟩
  intro hcon
  simp at hcon

/-- C7 (amended): in the dependencies projection every `requires_dist` entry
is parsed by removing the environment marker (all text after the first `;`),
trimming, then splitting on every `>=` occurrence and keeping the first two
fields: the trimmed text before the first `>=` is the dependency name and the
trimmed text between the first `>=` and the next `>=` occurrence (the whole
remainder when there is no second occurrence) is the version floor; an entry
with no `>=` yields an empty version constraint, and each entry yields one
record carrying exactly the parsed name and constraint. -/
theorem C7_amended_ge_split (name : String) (reqs : List String) (h : name ≠ "") :
    (depsRun [reqsRec name reqs] = (reqs.map (depReqRecord (.str name)), none)) ∧
    (∀ s : String, parseDepReq s =
      (let base := pyStripS ((splitFirstS s ";").elim s Prod.fst)
       match splitFirstS base ">=" with
       | none => (pyStripS base, "")
       | some (a, b) =>
         (pyStripS a, (splitFirstS b ">=").elim (pyStripS b) fun q => pyStripS q.1))) ∧
    (∀ s : String, depReqRecord (.str name) s =
      ⟨name ++ "-" ++ (parseDepReq s).1, .str name, (parseDepReq s).1,
       .str (parseDepReq s).2, depTypeRequires⟩) := by
  refine ⟨?_, parseDepReq_spec, fun s => rfl⟩
  unfold depsRun runProjP
  rw [reqsRec_eq, depsOne_reqsPyRec name reqs none h]
  simp [runProjP]

/-- Witness for C7 (amended): a single `>=` constraint parses into name and
floor as the amended claim states. -/
theorem C7_amended_ge_split_witness :
    depsRun [reqsRec "p" ["requests >= 2.25.1"]] =
      ([⟨"p-requests", .str "p", "requests", .str "2.25.1", depTypeRequires⟩], none) :=
  (C7_amended_ge_split "p" ["requests >= 2.25.1"] (by decide)).1

/-- C9: for a record with a name, string requirements and an optional
`requires_python` field, the dependencies projection emits the requirement
records followed by exactly one synthetic record with `dependency_id`
`"python"` and the record's `requires_python` value as constraint — present
if and only if `requires_python` is present and non-empty. -/
theorem C9_requires_python_synthetic (name : String) (reqs : List String)
    (rp : Option String) (h : name ≠ "") :
    (depsRun [reqsPyRec name reqs rp] =
      (reqs.map (depReqRecord (.str name)) ++
        (match rp with
         | some s => if s.data.isEmpty then []
             else [⟨name ++ "-python", .str name, "python", .str s,
                    depTypeRequiresPython⟩]
         | none => []), none)) ∧
    ((depsRun [reqsPyRec name reqs rp]).1.filter
        (fun d => d.type == depTypeRequiresPython)).length =
      (match rp with
       | some s => if s.data.isEmpty then 0 else 1
       | none => 0) := by
  have h1 : depsRun [reqsPyRec name reqs rp] =
      (reqs.map (depReqRecord (.str name)) ++
        (match rp with
         | some s => if s.data.isEmpty then []
             else [⟨name ++ "-python", .str name, "python", .str s,
                    depTypeRequiresPython⟩]
         | none => []), none) := by
    unfold depsRun runProjP
    rw [depsOne_reqsPyRec name reqs rp h]
    simp [runProjP]
  refine ⟨h1, ?_⟩
  rw [h1]
  simp only [List.filter_append]
  have hA : (reqs.map (depReqRecord (.str name))).filter
      (fun d => d.type == depTypeRequiresPython) = [] := by
    rw [List.filter_eq_nil_iff]
    intro a ha
    obtain ⟨r, -, hr⟩ := List.mem_map.mp ha
    rw [← hr]
    simp [depReqRecord, depTypeRequires, depTypeRequiresPython]
  rw [hA]
  cases rp with
  | none => simp
  | some s =>
    by_cases hs : s.data.isEmpty = true
    · simp [hs]
    · simp only [Bool.not_eq_true] at hs
      simp [hs]

/-- Witness for C9: `requires_python = ">=3.8"` yields exactly the synthetic
python record after the single requirement record. -/
theorem C9_requires_python_synthetic_witness :
    depsRun [reqsPyRec "p" ["requests>=2.25.1"] (some ">=3.8")] =
      ([depReqRecord (.str "p") "requests>=2.25.1",
        ⟨"p-python", .str "p", "python", .str ">=3.8", depTypeRequiresPython⟩], none) :=
  (C9_requires_python_synthetic "p" ["requests>=2.25.1"] (some ">=3.8") (by decide)).1

/-! ## The users projection's seen-set -/

theorem contains_iff (l : List String) (x : String) : l.contains x = true ↔ x ∈ l :=
  List.elem_iff

theorem personStep_spec (seen : List String) (nameJ emailJ : Json) :
    (∀ x, seen.contains x = true → (personStep seen nameJ emailJ).2.1.contains x = true) ∧
    (∀ u ∈ (personStep seen nameJ emailJ).1,
      seen.contains u.username = false ∧
      (personStep seen nameJ emailJ).2.1.contains u.username = true) ∧
    ((personStep seen nameJ emailJ).1.map (fun u => u.username)).Nodup := by
  unfold personStep
  by_cases h1 : (truthy nameJ && nameJ.isStr) = true
  · rw [if_pos h1]
    by_cases h2 : (!(pyStripS (strVal nameJ)).data.isEmpty &&
        !seen.contains (pyStripS (strVal nameJ))) = true
    · rw [if_pos h2]
      have hns : seen.contains (pyStripS (strVal nameJ)) = false := by
        have := (Bool.and_eq_true .. ▸ h2).2
        simpa using this
      by_cases h3 : truthy emailJ = true
      · rw [if_pos h3]
        cases he : asStr emailJ with
        | error e => simp
        | ok es =>
          refine ⟨fun x hx => ?_, fun u hu => ?_, by simp⟩
          · rw [List.contains_cons, hx]
            simp
          · simp only [List.mem_singleton] at hu
            subst hu
            refine ⟨hns, ?_⟩
            rw [List.contains_cons]
            simp
      · rw [if_neg h3]
        refine ⟨fun x hx => ?_, fun u hu => ?_, by simp⟩
        · rw [List.contains_cons, hx]
          simp
        · simp only [List.mem_singleton] at hu
          subst hu
          refine ⟨hns, ?_⟩
          rw [List.contains_cons]
          simp
    · rw [if_neg h2]
      simp
  · rw [if_neg h1]
    simp

theorem usersStep_spec (seen : List String) (r : Json) :
    (∀ x, seen.contains x = true → (usersStep seen r).2.1.contains x = true) ∧
    (∀ u ∈ (usersStep seen r).1,
      seen.contains u.username = false ∧
      (usersStep seen r).2.1.contains u.username = true) ∧
    ((usersStep seen r).1.map (fun u => u.username)).Nodup := by
  unfold usersStep
  cases hg1 : dictGet r "info" (.obj []) with
  | error e => simp
  | ok info =>
    dsimp only
    by_cases hti : (!truthy info) = true
    · rw [if_pos hti]; simp
    · rw [if_neg hti]
      cases hg2 : dictGet info "author" .null with
      | error e => simp
      | ok a =>
        dsimp only
        cases hg3 : dictGet info "author_email" .null with
        | error e => simp
        | ok ae =>
          dsimp only
          rcases hp1 : personStep seen (pyOr a (.str "")) (pyOr ae (.str "")) with
            ⟨out1, seen1, err1⟩
          have P1 := personStep_spec seen (pyOr a (.str "")) (pyOr ae (.str ""))
          rw [hp1] at P1
          cases err1 with
          | some e => exact ⟨P1.1, fun u hu => (P1.2.1 u hu), P1.2.2⟩
          | none =>
            dsimp only
            cases hg4 : dictGet info "maintainer" .null with
            | error e => exact ⟨P1.1, fun u hu => (P1.2.1 u hu), P1.2.2⟩
            | ok m =>
              dsimp only
              cases hg5 : dictGet info "maintainer_email" .null with
              | error e => exact ⟨P1.1, fun u hu => (P1.2.1 u hu), P1.2.2⟩
              | ok me =>
                dsimp only
                rcases hp2 : personStep seen1 (pyOr m (.str "")) (pyOr me (.str "")) with
                  ⟨out2, seen2, err2⟩
                have P2 := personStep_spec seen1 (pyOr m (.str "")) (pyOr me (.str ""))
                rw [hp2] at P2
                refine ⟨fun x hx => P2.1 x (P1.1 x hx), fun u hu => ?_, ?_⟩
                · rcases List.mem_append.mp hu with hu | hu
                  · exact ⟨(P1.2.1 u hu).1, P2.1 u.username (P1.2.1 u hu).2⟩
                  · refine ⟨?_, (P2.2.1 u hu).2⟩
                    by_contra hc
                    have hx : seen.contains u.username = true := by
                      cases hx2 : seen.contains u.username with
                      | false => exact absurd hx2 hc
                      | true => rfl
                    have hcontra := P1.1 u.username hx
                    rw [(P2.2.1 u hu).1] at hcontra
                    exact Bool.noConfusion hcontra
                · rw [List.map_append]
                  refine List.Nodup.append P1.2.2 P2.2.2 ?_
                  intro x hx1 hx2
                  obtain ⟨u1, hu1, hu1x⟩ := List.mem_map.mp hx1
                  obtain ⟨u2, hu2, hu2x⟩ := List.mem_map.mp hx2
                  have hA : seen1.contains x = true := hu1x ▸ (P1.2.1 u1 hu1).2
                  have hB : seen1.contains x = false := hu2x ▸ (P2.2.1 u2 hu2).1
                  rw [hA] at hB
                  exact Bool.noConfusion hB

theorem usersLoop_nodup :
    ∀ (recs : List Json) (seen : List String),
      ((usersLoop seen recs).1.map (fun u => u.username)).Nodup ∧
      ∀ u ∈ (usersLoop seen recs).1, seen.contains u.username = false := by
  intro recs
  induction recs with
  | nil => intro seen; simp [usersLoop]
  | cons r rest ih =>
    intro seen
    unfold usersLoop
    rcases hs : usersStep seen r with ⟨out, seen', err⟩
    have S := usersStep_spec seen r
    rw [hs] at S
    cases err with
    | some e => exact ⟨S.2.2, fun u hu => (S.2.1 u hu).1⟩
    | none =>
      dsimp only
      have IH := ih seen'
      constructor
      · rw [List.map_append]
        refine List.Nodup.append S.2.2 IH.1 ?_
        intro x hx1 hx2
        obtain ⟨u1, hu1, hu1x⟩ := List.mem_map.mp hx1
        obtain ⟨u2, hu2, hu2x⟩ := List.mem_map.mp hx2
        have hA : seen'.contains x = true := hu1x ▸ (S.2.1 u1 hu1).2
        have hB : seen'.contains x = false := hu2x ▸ IH.2 u2 hu2
        rw [hA] at hB
        exact Bool.noConfusion hB
      · intro u hu
        rcases List.mem_append.mp hu with hu | hu
        · exact (S.2.1 u hu).1
        · by_contra hc
          have hx : seen.contains u.username = true := by
            cases hx2 : seen.contains u.username with
            | false => exact absurd hx2 hc
            | true => rfl
          have hcontra := S.1 u.username hx
          rw [IH.2 u hu] at hcontra
          exact Bool.noConfusion hcontra

/-- C8: the users projection yields at most one record per distinct trimmed
display name in any run (usernames of the yielded records are pairwise
distinct), and on the concrete inputs of the claim: two records with the same
(trimmed) author collapse to one record carrying the first record's trimmed
email; an author and maintainer with the same name collapse to one record
with the author's email; and a user without an email gets the display name
as its import identity. -/
theorem C8_users_dedup :
    (∀ recs : List Json, ((usersRun recs).1.map (fun u => u.username)).Nodup) ∧
    usersRun [c8rec1, c8rec2] = ([⟨"Alice", "a1@x"⟩], none) ∧
    usersRun [c8rec3] = ([⟨"Bob", "b1@x"⟩], none) ∧
    usersRun [c8rec4] = ([⟨"Carol", "Carol"⟩], none) :=
  ⟨fun recs => (usersLoop_nodup recs []).1, rfl, rfl, rfl⟩

/-! ## Name guard of the versions and dependencies projections -/

theorem truthy_str_ne (sname : String) (h : truthy (Json.str sname) = true) :
    sname ≠ "" := by
  intro h0
  subst h0
  simp [truthy] at h

theorem runProjP_mem {α : Type} (f : Json → List α × Option PyErr) :
    ∀ (recs : List Json) (x : α), x ∈ (runProjP f recs).1 → ∃ r ∈ recs, x ∈ (f r).1 := by
  intro recs
  induction recs with
  | nil => intro x hx; simp [runProjP] at hx
  | cons r rest ih =>
    intro x hx
    unfold runProjP at hx
    rcases hf : f r with ⟨out, err⟩
    rw [hf] at hx
    cases err with
    | some e =>
      exact ⟨r, List.mem_cons_self r rest, by rw [hf]; exact hx⟩
    | none =>
      dsimp only at hx
      rcases List.mem_append.mp hx with hx | hx
      · exact ⟨r, List.mem_cons_self r rest, by rw [hf]; exact hx⟩
      · obtain ⟨r', hr', hxr'⟩ := ih x hx
        exact ⟨r', List.mem_cons_of_mem r hr', hxr'⟩

theorem verLoop_package_id (nameJ : Json) :
    ∀ (l : List (String × Json)) (v : VersionRec),
      v ∈ (verLoop nameJ l).1 → v.package_id = nameJ := by
  intro l
  induction l with
  | nil => intro v hv; simp [verLoop] at hv
  | cons p rest ih =>
    rcases p with ⟨ver, rd⟩
    intro v hv
    unfold verLoop at hv
    by_cases ht : (!truthy rd) = true
    · rw [if_pos ht] at hv
      exact ih v hv
    · rw [if_neg ht] at hv
      cases h1 : index0 rd with
      | error e => rw [h1] at hv; simp at hv
      | ok rel =>
        rw [h1] at hv
        dsimp only at hv
        cases h2 : dictGet rel "upload_time" (.str "") with
        | error e => rw [h2] at hv; simp at hv
        | ok ct =>
          rw [h2] at hv
          dsimp only at hv
          cases h3 : dictGet rel "downloads" (.num 0) with
          | error e => rw [h3] at hv; simp at hv
          | ok dl =>
            rw [h3] at hv
            dsimp only at hv
            rcases List.mem_cons.mp hv with hv | hv
            · subst hv; rfl
            · exact ih v hv

theorem versionsOne_package_id (r : Json) (v : VersionRec)
    (hv : v ∈ (versionsOne r).1) : truthy v.package_id = true := by
  unfold versionsOne at hv
  cases h1 : dictGet r "info" (.obj []) with
  | error e => rw [h1] at hv; simp at hv
  | ok info =>
    rw [h1] at hv
    dsimp only at hv
    cases h2 : dictGet r "releases" (.obj []) with
    | error e => rw [h2] at hv; simp at hv
    | ok releases =>
      rw [h2] at hv
      dsimp only at hv
      cases h3 : dictGet info "name" .null with
      | error e => rw [h3] at hv; simp at hv
      | ok nameJ =>
        rw [h3] at hv
        dsimp only at hv
        by_cases htr : (!truthy nameJ) = true
        · rw [if_pos htr] at hv; simp at hv
        · rw [if_neg htr] at hv
          cases h4 : itemsJ releases with
          | error e => rw [h4] at hv; simp at hv
          | ok items =>
            rw [h4] at hv
            dsimp only at hv
            rw [verLoop_package_id nameJ items v hv]
            simpa using htr

theorem depReqLoop_package_id (nameJ : Json) :
    ∀ (l : List Json) (d : DepRec),
      d ∈ (depReqLoop nameJ l).1 → d.package_id = nameJ := by
  intro l
  induction l with
  | nil => intro d hd; simp [depReqLoop] at hd
  | cons req rest ih =>
    intro d hd
    unfold depReqLoop at hd
    cases ha : asStr req with
    | error e => rw [ha] at hd; simp at hd
    | ok str0 =>
      rw [ha] at hd
      dsimp only at hd
      rcases List.mem_cons.mp hd with hd | hd
      · subst hd; rfl
      · exact ih d hd

theorem depsOne_package_id (r : Json) (d : DepRec) (hd : d ∈ (depsOne r).1) :
    truthy d.package_id = true := by
  unfold depsOne at hd
  cases h1 : dictGet r "info" (.obj []) with
  | error e => rw [h1] at hd; simp at hd
  | ok info =>
    rw [h1] at hd
    dsimp only at hd
    cases h2 : dictGet info "name" .null with
    | error e => rw [h2] at hd; simp at hd
    | ok nameJ =>
      rw [h2] at hd
      dsimp only at hd
      by_cases htr : (!truthy nameJ) = true
      · rw [if_pos htr] at hd; simp at hd
      · rw [if_neg htr] at hd
        have htt : truthy nameJ = true := by simpa using htr
        cases h3 : dictGet info "requires_dist" (.arr []) with
        | error e => rw [h3] at hd; simp at hd
        | ok rd =>
          rw [h3] at hd
          dsimp only at hd
          have hout : ∀ d' ∈ (if truthy rd then
              (match iterJ rd with
               | .error e => (([] : List DepRec), some e)
               | .ok reqs => depReqLoop nameJ reqs)
              else ([], none)).1, d'.package_id = nameJ := by
            by_cases htd : truthy rd = true
            · rw [if_pos htd]
              cases hit : iterJ rd with
              | error e => simp
              | ok reqs =>
                dsimp only
                intro d' hd'
                exact depReqLoop_package_id nameJ reqs d' hd'
            · rw [if_neg htd]
              simp
          rcases hrp : (if truthy rd then
              (match iterJ rd with
               | .error e => (([] : List DepRec), some e)
               | .ok reqs => depReqLoop nameJ reqs)
              else ([], none)) with ⟨out, err⟩
          rw [hrp] at hd hout
          cases err with
          | some e =>
            dsimp only at hd
            rw [hout d hd]
            exact htt
          | none =>
            dsimp only at hd
            cases h4 : dictGet info "requires_python" .null with
            | error e =>
              rw [h4] at hd
              dsimp only at hd
              rw [hout d hd]
              exact htt
            | ok rp =>
              rw [h4] at hd
              dsimp only at hd
              by_cases htp : truthy rp = true
              · rw [if_pos htp] at hd
                rcases List.mem_append.mp hd with hd | hd
                · rw [hout d hd]; exact htt
                · rcases List.mem_singleton.mp hd with rfl
                  exact htt
              · rw [if_neg htp] at hd
                rw [hout d hd]
                exact htt

/-- C10: a raw record whose `info` object has no `name` (or a falsy one, in
particular the empty string) makes both the versions and the dependencies
projections emit no records for that package without faulting; and every
record either projection ever emits carries a truthy (hence non-empty)
`package_id`. -/
theorem C10_name_guard :
    (∀ (infoKvs : List (String × Json)) (releases : Json),
      (match lookupKV infoKvs "name" with
       | none => True
       | some v => truthy v = false) →
      versionsOne (c10rec infoKvs releases) = ([], none) ∧
      depsOne (c10rec infoKvs releases) = ([], none)) ∧
    (∀ recs : List Json,
      (∀ v ∈ (versionsRun recs).1, truthy v.package_id = true ∧
        ∀ sname : String, v.package_id = Json.str sname → sname ≠ "") ∧
      (∀ d ∈ (depsRun recs).1, truthy d.package_id = true ∧
        ∀ sname : String, d.package_id = Json.str sname → sname ≠ "")) := by
  constructor
  · intro infoKvs releases hname
    cases hlk : lookupKV infoKvs "name" with
    | none =>
      constructor <;>
        simp [versionsOne, depsOne, c10rec, dictGet, lookupKV, hlk, truthy]
    | some v =>
      rw [hlk] at hname
      have hv : truthy v = false := hname
      constructor <;>
        simp [versionsOne, depsOne, c10rec, dictGet, lookupKV, hlk, hv]
  · intro recs
    constructor
    · intro v hv
      obtain ⟨r, -, hr⟩ := runProjP_mem versionsOne recs v hv
      have ht := versionsOne_package_id r v hr
      exact ⟨ht, fun sname hsn => truthy_str_ne sname (hsn ▸ ht)⟩
    · intro d hd
      obtain ⟨r, -, hr⟩ := runProjP_mem depsOne recs d hd
      have ht := depsOne_package_id r d hr
      exact ⟨ht, fun sname hsn => truthy_str_ne sname (hsn ▸ ht)⟩

/-- Witness for C10: a record with requirements and releases but no `name`
key yields nothing and no fault in either projection. -/
theorem C10_name_guard_witness :
    versionsOne (c10rec c10kvs c10rel) = ([], none) ∧
    depsOne (c10rec c10kvs c10rel) = ([], none) :=
  C10_name_guard.1 c10kvs c10rel (by trivial)

end Chai
